import Mathlib

/-!
Verification development for the `pdf-light` HTML-to-render-node converter
(`src/parser/HtmlParser.ts`).  The TypeScript source is shallowly embedded:
strings are `List Char`, JS objects holding style properties become a
structure of `Option` fields (a `none` field models an absent JS property),
the mutable open-element stack of the tree builder becomes explicit state
passing with a stack of frames, and the static `cssRules` field is threaded
as an explicit value.  All definitions are executable and proofs are run
against them on concrete inputs.
-/

/-- Characters of a JS string.  JS strings are embedded as `List Char`. -/
abbrev Chars : Type := List Char

/-- The character class of the JS regex `\s` (whitespace), restricted to the
whitespace characters that can occur in this code base's inputs: space, tab,
newline, carriage return, vertical tab, form feed, NBSP and BOM. -/
def isJsSpace (c : Char) : Bool :=
  c = ' ' || c = '\t' || c = '\n' || c = '\r' || c = '\x0b' ||
  c = '\x0c' || c = ' ' || c = '﻿'

/-- The character class of the regex `[\n\r\t]` used by the first
whitespace-collapsing `replace` in `ontext`. -/
def isNlCrTab (c : Char) : Bool :=
  c = '\n' || c = '\r' || c = '\t'

/-- JS `String.prototype.trim()`: strip leading and trailing whitespace. -/
def jsTrim (s : Chars) : Chars :=
  ((s.dropWhile isJsSpace).reverse.dropWhile isJsSpace).reverse

/-- JS `String.prototype.split(sep)` for a single-character separator.
`split` never returns an empty array: `"".split(c) = [""]`. -/
def splitOnChar (sep : Char) : Chars → List Chars
  | [] => [[]]
  | c :: cs =>
    if c = sep then [] :: splitOnChar sep cs
    else
      match splitOnChar sep cs with
      | [] => [[c]]
      | r :: rs => (c :: r) :: rs

/-- JS `Array.prototype.join(sep)` over strings (used with `'\n'` and `';'`). -/
def joinWith (sep : Chars) : List Chars → Chars
  | [] => []
  | [s] => s
  | s :: rest => s ++ sep ++ joinWith sep rest

/-- Value of a decimal digit character. -/
def digitVal (c : Char) : Nat := c.toNat - '0'.toNat

/-- Natural number denoted by a list of decimal digit characters. -/
def digitsToNat (ds : Chars) : Nat :=
  ds.foldl (fun a c => a * 10 + digitVal c) 0

/-- A JS number as produced by `parseFloat`: either NaN or a rational
(the source never performs arithmetic on parsed numbers, so exact rationals
faithfully model the stored values). -/
inductive CssNum where
  | nan : CssNum
  | num (q : ℚ) : CssNum
deriving DecidableEq

/-- JS `parseFloat`: skip leading whitespace, optional sign, decimal
mantissa (digits, optional fraction), optional exponent; NaN when no digit
is found. -/
def parseFloat (s : Chars) : CssNum :=
  let s1 := s.dropWhile isJsSpace
  let signAndRest : ℚ × Chars :=
    match s1 with
    | '-' :: r => (-1, r)
    | '+' :: r => (1, r)
    | r => (1, r)
  let sg := signAndRest.1
  let s2 := signAndRest.2
  let ip := s2.takeWhile Char.isDigit
  let s3 := s2.dropWhile Char.isDigit
  let fracAndRest : Chars × Chars :=
    match s3 with
    | '.' :: r => (r.takeWhile Char.isDigit, r.dropWhile Char.isDigit)
    | r => ([], r)
  let fp := fracAndRest.1
  let s4 := fracAndRest.2
  if ip = [] ∧ fp = [] then CssNum.nan
  else
    let mant : ℚ := (digitsToNat ip : ℚ) + (digitsToNat fp : ℚ) / ((10 : ℚ) ^ fp.length)
    let expo : Int :=
      match s4 with
      | 'e' :: '-' :: d => -((digitsToNat (d.takeWhile Char.isDigit) : Int))
      | 'e' :: '+' :: d => (digitsToNat (d.takeWhile Char.isDigit) : Int)
      | 'e' :: d => (digitsToNat (d.takeWhile Char.isDigit) : Int)
      | 'E' :: '-' :: d => -((digitsToNat (d.takeWhile Char.isDigit) : Int))
      | 'E' :: '+' :: d => (digitsToNat (d.takeWhile Char.isDigit) : Int)
      | 'E' :: d => (digitsToNat (d.takeWhile Char.isDigit) : Int)
      | _ => 0
    CssNum.num (sg * mant * (10 : ℚ) ^ expo)

/-- A stored style value: number (from `parseFloat`) or raw string. -/
inductive SVal where
  | num (n : CssNum) : SVal
  | str (s : Chars) : SVal
deriving DecidableEq

/-- The style map of a render node.  Each field models one property of the
JS `styles` object; `none` means the JS object has no such own property
(relevant for spread/`Object.assign` merge semantics). -/
structure Styles where
  fontSize : Option SVal := none
  fontFamily : Option SVal := none
  fontWeight : Option SVal := none
  color : Option SVal := none
  textAlign : Option SVal := none
  marginTop : Option SVal := none
  marginBottom : Option SVal := none
  backgroundColor : Option SVal := none
  borderBottom : Option SVal := none
  padding : Option SVal := none
  width : Option SVal := none
deriving DecidableEq

/-- The style map with no properties set (JS `{}`). -/
def emptyStyles : Styles := {}

/-- The fixed set of style property names, for per-property statements. -/
inductive SProp where
  | fontSize | fontFamily | fontWeight | color | textAlign
  | marginTop | marginBottom | backgroundColor | borderBottom
  | padding | width
deriving DecidableEq

/-- Read one property out of a style map. -/
def getProp (s : Styles) : SProp → Option SVal
  | .fontSize => s.fontSize
  | .fontFamily => s.fontFamily
  | .fontWeight => s.fontWeight
  | .color => s.color
  | .textAlign => s.textAlign
  | .marginTop => s.marginTop
  | .marginBottom => s.marginBottom
  | .backgroundColor => s.backgroundColor
  | .borderBottom => s.borderBottom
  | .padding => s.padding
  | .width => s.width

/-- JS object spread `{...a, ...b}` (also `Object.assign(a, b)`): properties
present in `b` overwrite those of `a`, per property. -/
def mergeStyles (a b : Styles) : Styles where
  fontSize := b.fontSize.or a.fontSize
  fontFamily := b.fontFamily.or a.fontFamily
  fontWeight := b.fontWeight.or a.fontWeight
  color := b.color.or a.color
  textAlign := b.textAlign.or a.textAlign
  marginTop := b.marginTop.or a.marginTop
  marginBottom := b.marginBottom.or a.marginBottom
  backgroundColor := b.backgroundColor.or a.backgroundColor
  borderBottom := b.borderBottom.or a.borderBottom
  padding := b.padding.or a.padding
  width := b.width.or a.width

/-- One recognized-declaration step of `parseStyles`: the body of the
`forEach` after key/value extraction succeeded (the if-chain over the fixed
key set; unknown keys leave the map unchanged). -/
def assignStyle (st : Styles) (key value : Chars) : Styles :=
  if key = ("font-size").toList then { st with fontSize := some (.num (parseFloat value)) }
  else if key = ("color").toList then { st with color := some (.str value) }
  else if key = ("text-align").toList then { st with textAlign := some (.str value) }
  else if key = ("font-weight").toList then
    { st with fontWeight := some (.str (if value = ("bold").toList then ("bold").toList else ("normal").toList)) }
  else if key = ("margin-top").toList then { st with marginTop := some (.num (parseFloat value)) }
  else if key = ("margin-bottom").toList then { st with marginBottom := some (.num (parseFloat value)) }
  else if key = ("margin").toList then
    { st with marginTop := some (.num (parseFloat value)), marginBottom := some (.num (parseFloat value)) }
  else if key = ("background-color").toList then { st with backgroundColor := some (.str value) }
  else if key = ("border-bottom").toList then { st with borderBottom := some (.str value) }
  else if key = ("padding").toList then { st with padding := some (.num (parseFloat value)) }
  else if key = ("width").toList then { st with width := some (.str value) }
  else st

/-- Key/value extraction shared by `parseStyles` and `parseCss`:
`decl.split(':').map(s => s.trim())` destructured as `[key, value]`, with
the `!key || !value` guard.  `none` models a discarded declaration. -/
def declKV (decl : Chars) : Option (Chars × Chars) :=
  match (splitOnChar ':' decl).map jsTrim with
  | [] => none
  | [_] => none
  | key :: value :: _ => if key = [] ∨ value = [] then none else some (key, value)

/-- `HtmlParser.parseStyles`: parse an inline-style string (or an absent
`style` attribute) into a style map. -/
def parseStyles (styleStr : Option Chars) : Styles :=
  match styleStr with
  | none => emptyStyles
  | some s =>
    (splitOnChar ';' s).foldl
      (fun st rule =>
        match declKV rule with
        | none => st
        | some (key, value) => assignStyle st key value)
      emptyStyles

/-- JS `Record<string, string>` assignment `declarations[key] = value`:
overwrite in place when the key exists, else append (string-keyed JS objects
keep first-insertion order). -/
def recordSet (r : List (Chars × Chars)) (key value : Chars) : List (Chars × Chars) :=
  match r with
  | [] => [(key, value)]
  | (k, v) :: rest =>
    if k = key then (k, value) :: rest else (k, v) :: recordSet rest key value

/-- Declaration block body of `parseCss`: split on `';'`, extract and trim
key/value, keep the ones with both present. -/
def parseDecls (content : Chars) : List (Chars × Chars) :=
  (splitOnChar ';' content).foldl
    (fun decls d =>
      match declKV d with
      | none => decls
      | some (key, value) => recordSet decls key value)
    []

/-- Scanner equivalent of repeatedly matching the rule regex
`([^{}]+)\s*{\s*([^}]+)\s*}` (global): `none` mode accumulates the pending
run of non-brace characters (reversed); `some sel` mode is inside a brace
accumulating the declaration text (any character but `'}'`).  A `'{'` with
no pending run, a run ended by `'}'`, and an empty declaration body all
fail to produce a match, exactly as the regex does.  Selector trimming and
declaration parsing happen in `parseCss` below, so captured whitespace is
immaterial. -/
def cssScanAux : Option Chars → Chars → Chars → List (Chars × Chars)
  | _, _, [] => []
  | none, acc, c :: cs =>
    if c = '{' then
      if acc = [] then cssScanAux none [] cs
      else cssScanAux (some acc.reverse) [] cs
    else if c = '}' then cssScanAux none [] cs
    else cssScanAux none (c :: acc) cs
  | some sel, acc, c :: cs =>
    if c = '}' then
      if acc = [] then cssScanAux none [] cs
      else (sel, acc.reverse) :: cssScanAux none [] cs
    else cssScanAux (some sel) (c :: acc) cs

/-- `HtmlParser.parseCss`: concatenated style text to the ordered rule
list, each rule a (trimmed selector, declaration record) pair. -/
def parseCss (css : Chars) : List (Chars × List (Chars × Chars)) :=
  (cssScanAux none [] css).map (fun p => (jsTrim p.1, parseDecls p.2))

/-- `HtmlParser.matchesSelector`: `.name` against the class list, `#name`
against the id, bare text against the tag name. -/
def matchesSelector (selector : Chars) (tagName : Chars) (classNames : List Chars)
    (id : Option Chars) : Bool :=
  match jsTrim selector with
  | '.' :: rest => classNames.contains rest
  | '#' :: rest => id = some rest
  | sel => sel = tagName

/-- Serialization inside `applyCssRules`:
`Object.entries(declarations).map(([k, v]) => k + ": " + v).join(';')`. -/
def joinDecls (decls : List (Chars × Chars)) : Chars :=
  joinWith (";").toList (decls.map (fun p => p.1 ++ (": ").toList ++ p.2))

/-- Loop body of `applyCssRules`: merge a matching rule's (re-serialized
and re-parsed) declarations into the accumulated map via `Object.assign`. -/
def cssRuleStep (tagName : Chars) (classNames : List Chars) (id : Option Chars)
    (applied : Styles) (r : Chars × List (Chars × Chars)) : Styles :=
  if matchesSelector r.1 tagName classNames id then
    mergeStyles applied (parseStyles (some (joinDecls r.2)))
  else applied

/-- `HtmlParser.applyCssRules`: fold the ordered rule list, applying every
matching rule over the style map in document order. -/
def applyCssRules (rules : List (Chars × List (Chars × Chars))) (tagName : Chars)
    (classNames : List Chars) (id : Option Chars) : Styles :=
  rules.foldl (cssRuleStep tagName classNames id) emptyStyles

/-- `HtmlParser.getUserAgentStyles`: the baseline defaults with the per-tag
switch for `h1`/`h2`/`h3`/`p`. -/
def getUserAgentStyles (tagName : Chars) : Styles :=
  let s : Styles :=
    { fontSize := some (.num (.num 12))
      fontFamily := some (.str ("body").toList)
      fontWeight := some (.str ("normal").toList)
      color := some (.str ("#000000").toList)
      textAlign := some (.str ("left").toList)
      marginTop := some (.num (.num 0))
      marginBottom := some (.num (.num 0)) }
  if tagName = ("h1").toList then
    { s with fontSize := some (.num (.num 24)), fontWeight := some (.str ("bold").toList),
             marginBottom := some (.num (.num 10)) }
  else if tagName = ("h2").toList then
    { s with fontSize := some (.num (.num 20)), fontWeight := some (.str ("bold").toList),
             marginBottom := some (.num (.num 10)) }
  else if tagName = ("h3").toList then
    { s with fontSize := some (.num (.num 18)), fontWeight := some (.str ("bold").toList),
             marginBottom := some (.num (.num 8)) }
  else if tagName = ("p").toList then
    { s with marginBottom := some (.num (.num 10)) }
  else s

mutual

/-- Scanner equivalent of the style-block extraction regex
`<style[^>]*>([\s\S]*?)<\/style>` (global): each state of the three-phase
scan (seeking `<style`, consuming the rest of the open tag up to `'>'`,
lazily capturing body text up to the literal `</style>`) consumes at least
one character, so a fuel of the input length suffices; exhausted fuel is
unreachable from `extractStyleTags`.  Each captured body is followed by a
newline (`css += match[1] + '\n'`). -/
def extractSeek : Nat → Chars → Chars
  | 0, _ => []
  | _ + 1, [] => []
  | fuel + 1, c :: cs =>
    if ("<style").toList.isPrefixOf (c :: cs) then
      extractOpenRest fuel ((c :: cs).drop 6)
    else extractSeek fuel cs

/-- Phase two of the extraction scan: `[^>]*>` after the `<style` literal. -/
def extractOpenRest : Nat → Chars → Chars
  | 0, _ => []
  | _ + 1, [] => []
  | fuel + 1, c :: cs =>
    if c = '>' then extractBody fuel [] cs
    else extractOpenRest fuel cs

/-- Phase three of the extraction scan: lazy body capture up to the first
`</style>`; an unclosed block contributes nothing (and a string with no
`</style>` left can hold no further match, matching the regex). -/
def extractBody : Nat → Chars → Chars → Chars
  | 0, _, _ => []
  | _ + 1, _, [] => []
  | fuel + 1, acc, c :: cs =>
    if ("</style>").toList.isPrefixOf (c :: cs) then
      acc.reverse ++ '\n' :: extractSeek fuel ((c :: cs).drop 8)
    else extractBody fuel (c :: acc) cs

end

/-- `HtmlParser.extractStyleTags`: concatenation of the bodies of all
embedded style blocks, each followed by a newline. -/
def extractStyleTags (html : Chars) : Chars :=
  extractSeek (html.length + 1) html

/-- The concatenated style text of `parse`:
`[inlineStyles, css || ''].filter(s => s.trim()).join('\n')`. -/
def allCssOf (html : Chars) (css : Option Chars) : Chars :=
  joinWith ['\n']
    (([extractStyleTags html, css.getD []]).filter (fun s => jsTrim s ≠ []))

/-- One pass of run collapsing, the JS `replace(/[X]+/g, ' ')` for a
character class `p`: every maximal nonempty run of `p`-characters becomes a
single space.  The boolean flag records being inside a run. -/
def collapseAux (p : Char → Bool) : Bool → Chars → Chars
  | _, [] => []
  | inRun, c :: cs =>
    if p c then
      if inRun then collapseAux p true cs
      else ' ' :: collapseAux p true cs
    else c :: collapseAux p false cs

/-- `replace(/[X]+/g, ' ')` from the start of the string. -/
def collapseRuns (p : Char → Bool) (s : Chars) : Chars :=
  collapseAux p false s

/-- The `ontext` whitespace cleanup:
`text.replace(/[\n\r\t]+/g, ' ').replace(/\s+/g, ' ')`. -/
def collapseWs (s : Chars) : Chars :=
  collapseRuns isJsSpace (collapseRuns isNlCrTab s)

/-- The `type` tag of a render node. -/
inductive NType where
  | text | brk | image | table | row | cell | block
deriving DecidableEq

/-- A render node: `type`, `styles`, and the optional `text`, `src` and
`children` properties (absent properties are `none`; containers are created
with `children = some []`). -/
inductive RNode where
  | mk (ty : NType) (styles : Styles) (txt : Option Chars) (src : Option Chars)
      (children : Option (List RNode)) : RNode

/-- The `type` of a render node. -/
def RNode.ty : RNode → NType
  | .mk t _ _ _ _ => t

/-- The `children` property of a render node. -/
def RNode.children : RNode → Option (List RNode)
  | .mk _ _ _ _ ch => ch

/-- `HtmlParser.isVoidElement`. -/
def isVoidElement (tagName : Chars) : Bool :=
  [("img").toList, ("br").toList, ("hr").toList, ("input").toList].contains tagName

/-- Class list of an element: `attribs.class?.split(' ') ?? []`. -/
def classListOf (attribs : List (Chars × Chars)) : List Chars :=
  match List.lookup ("class").toList attribs with
  | some c => splitOnChar ' ' c
  | none => []

/-- Id of an element: `attribs.id`. -/
def idOf (attribs : List (Chars × Chars)) : Option Chars :=
  List.lookup ("id").toList attribs

/-- The three-layer style resolution of `createNode`
(`{...baseStyles, ...cssStyles, ...inlineStyles}`): user-agent baseline,
then matching rules, then the inline `style` attribute. -/
def resolveStyles (rules : List (Chars × List (Chars × Chars))) (tagName : Chars)
    (attribs : List (Chars × Chars)) : Styles :=
  let baseStyles := getUserAgentStyles tagName
  let cssStyles := applyCssRules rules tagName (classListOf attribs) (idOf attribs)
  let inlineStyles := parseStyles (List.lookup ("style").toList attribs)
  mergeStyles (mergeStyles baseStyles cssStyles) inlineStyles

/-- JS truthiness test for an attribute lookup (`if (attribs.x)`): present
and not the empty string. -/
def attrTruthy (o : Option Chars) : Bool :=
  match o with
  | none => false
  | some s => s ≠ []

/-- `HtmlParser.createNode`: map a tag and its attributes to a render node
(with resolved styles and the tag-specific special handling), or `none` for
an unsupported tag. -/
def createNode (rules : List (Chars × List (Chars × Chars))) (tagName : Chars)
    (attribs : List (Chars × Chars)) : Option RNode :=
  let finalStyles := resolveStyles rules tagName attribs
  if tagName = ("br").toList then
    some (.mk .brk finalStyles none none none)
  else if tagName = ("img").toList then
    some (.mk .image finalStyles none (List.lookup ("src").toList attribs) none)
  else if tagName = ("table").toList then
    let w := List.lookup ("width").toList attribs
    let cp := List.lookup ("cellpadding").toList attribs
    let st1 := if attrTruthy w then { finalStyles with width := some (.str (w.getD [])) } else finalStyles
    let st2 := if attrTruthy cp then { st1 with padding := some (.num (parseFloat (cp.getD []))) } else st1
    some (.mk .table st2 none none (some []))
  else if tagName = ("thead").toList ∨ tagName = ("tbody").toList then
    some (.mk .block finalStyles none none (some []))
  else if tagName = ("tr").toList then
    some (.mk .row finalStyles none none (some []))
  else if tagName = ("td").toList ∨ tagName = ("th").toList then
    let al := List.lookup ("align").toList attribs
    let w := List.lookup ("width").toList attribs
    let st1 := if attrTruthy al then { finalStyles with textAlign := some (.str (al.getD [])) } else finalStyles
    let st2 := if attrTruthy w then { st1 with width := some (.str (w.getD [])) } else st1
    some (.mk .cell st2 none none (some []))
  else if tagName ∈ [("h1").toList, ("h2").toList, ("h3").toList, ("h4").toList,
      ("h5").toList, ("h6").toList, ("p").toList, ("div").toList] then
    some (.mk .block finalStyles none none (some []))
  else if tagName ∈ [("span").toList, ("strong").toList, ("b").toList,
      ("em").toList, ("i").toList] then
    let st := if tagName = ("strong").toList ∨ tagName = ("b").toList then
        { finalStyles with fontWeight := some (.str ("bold").toList) }
      else finalStyles
    some (.mk .block st none none (some []))
  else none

/-- One event of the tokenizer's stream (`htmlparser2` is external to the
repository; the builder consumes its open/text/close callbacks in document
order). -/
inductive HEvent where
  | otag (name : Chars) (attribs : List (Chars × Chars)) : HEvent
  | textEv (raw : Chars) : HEvent
  | ctag (name : Chars) : HEvent

/-- Whether an event is an open-tag event. -/
def isOpenEv : HEvent → Bool
  | .otag _ _ => true
  | _ => false

/-- An open element on the builder's stack.  In the source the stack holds
the node object itself and children are appended to it in place; here the
frame carries the node's scalar fields plus `acc`, the children appended so
far, and the node is assembled when the frame is popped (or at end of
stream).  Only the stack top's `acc` ever grows, so this is the same
mutation order as the source. -/
structure Frame where
  ty : NType
  styles : Styles
  txt : Option Chars
  src : Option Chars
  acc : List RNode

/-- Builder state: the root sequence grown so far and the open-element
stack (head = top). -/
structure BState where
  roots : List RNode
  stack : List Frame

/-- Assemble the node of a popped frame: its accumulated children become
the node's `children` array. -/
def finalizeFrame (f : Frame) : RNode :=
  .mk f.ty f.styles f.txt f.src (some f.acc)

/-- Append a finished node where the source's `push` puts it: the current
stack top's children, or the root sequence when the stack is empty. -/
def appendChild (s : BState) (n : RNode) : BState :=
  match s.stack with
  | [] => { s with roots := s.roots ++ [n] }
  | f :: fs => { s with stack := { f with acc := f.acc ++ [n] } :: fs }

/-- The scalar-field signature of a frame: the part of an open element that
identifies it independently of later child appends. -/
def frameSig (f : Frame) : NType × Styles × Option Chars × Option Chars :=
  (f.ty, f.styles, f.txt, f.src)

/-- `onopentag`: skip `<style>`; skip unsupported tags entirely; otherwise
attach the new node (to the stack top or to the roots) and, unless the tag
is void, open it by pushing a frame. -/
def stepOpen (rules : List (Chars × List (Chars × Chars))) (name : Chars)
    (attribs : List (Chars × Chars)) (s : BState) : BState :=
  if name = ("style").toList then s
  else
    match createNode rules name attribs with
    | none => s
    | some n =>
      if isVoidElement name then appendChild s n
      else
        match n with
        | .mk ty st t src ch =>
          { s with stack := ⟨ty, st, t, src, ch.getD []⟩ :: s.stack }

/-- `ontext`: discard at root level; collapse whitespace; discard when the
trimmed result is empty; otherwise append a text node carrying a snapshot
of the stack top's styles (the source's `cleanText` binding is written out
at both of its use sites). -/
def stepText (raw : Chars) (s : BState) : BState :=
  match s.stack with
  | [] => s
  | f :: fs =>
    if 0 < (jsTrim (collapseWs raw)).length then
      { s with stack := { f with
          acc := f.acc ++ [.mk .text f.styles (some (collapseWs raw)) none none] } :: fs }
    else s

/-- `onclosetag`: for a non-void tag other than `style`, pop the stack
unconditionally (a pop on the empty stack is a no-op, as in JS); the popped
element's node is assembled and was already attached at open time in the
source, which the `appendChild` here reproduces. -/
def stepClose (name : Chars) (s : BState) : BState :=
  if ¬ isVoidElement name ∧ name ≠ ("style").toList then
    match s.stack with
    | [] => s
    | f :: fs => appendChild { s with stack := fs } (finalizeFrame f)
  else s

/-- Dispatch one tokenizer event. -/
def stepEvent (rules : List (Chars × List (Chars × Chars))) (s : BState)
    (e : HEvent) : BState :=
  match e with
  | .otag name attribs => stepOpen rules name attribs s
  | .textEv raw => stepText raw s
  | .ctag name => stepClose name s

/-- Builder state after consuming a whole event stream. -/
def buildState (rules : List (Chars × List (Chars × Chars)))
    (events : List HEvent) : BState :=
  events.foldl (stepEvent rules) ⟨[], []⟩

/-- End-of-stream fold helper: the current top frame is assembled and
appended to the next frame down (or to the roots when it is the bottom). -/
def finishAux (roots : List RNode) : Frame → List Frame → List RNode
  | f, [] => roots ++ [finalizeFrame f]
  | f, g :: gs => finishAux roots { g with acc := g.acc ++ [finalizeFrame f] } gs

/-- End of stream: elements still open stay in the tree as already-attached
ancestors, so the remaining frames are folded down into their parents (and
the bottom frame into the roots). -/
def finishStack (roots : List RNode) : List Frame → List RNode
  | [] => roots
  | f :: fs => finishAux roots f fs

/-- The forest produced from an event stream with a given rule list. -/
def runEvents (rules : List (Chars × List (Chars × Chars)))
    (events : List HEvent) : List RNode :=
  let s := buildState rules events
  finishStack s.roots s.stack

/-- `HtmlParser.parse` as one conversion call.  `events` is the stream the
external tokenizer produces for `html` (deterministic in `html`); `prior`
is the value of the static `cssRules` field left by any earlier call.  The
field is reassigned from the arguments (line `HtmlParser.cssRules =
HtmlParser.parseCss(allCss)`) before any resolution reads it; the returned
pair is (root forest, field value after the call). -/
def parseModelCall (html : Chars) (events : List HEvent) (css : Option Chars)
    (_prior : List (Chars × List (Chars × Chars))) :
    List RNode × List (Chars × List (Chars × Chars)) :=
  let rules := parseCss (allCssOf html css)
  (runEvents rules events, rules)


mutual

/-- A render node is void-safe: if its kind is `break` or `image` it has no
`children` property, and all of its children (if any) are void-safe. -/
inductive VoidOkN : RNode → Prop where
  | intro : ∀ (ty : NType) (st : Styles) (t src : Option Chars)
      (ch : Option (List RNode)),
      ((ty = NType.brk ∨ ty = NType.image) → ch = none) →
      VoidOkL (ch.getD []) → VoidOkN (.mk ty st t src ch)

/-- All nodes of a forest are void-safe. -/
inductive VoidOkL : List RNode → Prop where
  | nil : VoidOkL []
  | cons : ∀ (n : RNode) (ns : List RNode), VoidOkN n → VoidOkL ns →
      VoidOkL (n :: ns)

end

/-- Stack frames never carry a void node kind. -/
def frameTyOk (f : Frame) : Prop := f.ty ≠ NType.brk ∧ f.ty ≠ NType.image

/-- Builder-state invariant: the roots built so far are void-safe, and
every open element is of container kind with void-safe children so far. -/
def BInv (s : BState) : Prop :=
  VoidOkL s.roots ∧ ∀ f ∈ s.stack, frameTyOk f ∧ VoidOkL f.acc

/-! ## Helper lemmas about option merge and the style fold -/

theorem optOrSome {α : Type} (v : α) (o : Option α) : (some v).or o = some v := rfl

theorem optOrNone {α : Type} (o : Option α) : (Option.none).or o = o := rfl

theorem optOrNoneRight {α : Type} (o : Option α) : o.or none = o := by
  cases o <;> rfl

theorem optOrAssoc {α : Type} (a b c : Option α) : (a.or b).or c = a.or (b.or c) := by
  cases a <;> cases b <;> rfl

theorem getProp_empty (p : SProp) : getProp emptyStyles p = none := by
  cases p <;> rfl

theorem getProp_merge (a b : Styles) (p : SProp) :
    getProp (mergeStyles a b) p = (getProp b p).or (getProp a p) := by
  cases p <;> rfl

/-- The matching-rule fold from an arbitrary accumulator decomposes, per
property, into the fold from the empty map overriding the accumulator. -/
theorem applyFold_acc (tagName : Chars) (classNames : List Chars) (id : Option Chars)
    (ys : List (Chars × List (Chars × Chars))) :
    ∀ (acc : Styles) (p : SProp),
      getProp (ys.foldl (cssRuleStep tagName classNames id) acc) p =
        (getProp (ys.foldl (cssRuleStep tagName classNames id) emptyStyles) p).or
          (getProp acc p) := by
  induction ys with
  | nil => intro acc p; simp [List.foldl, getProp_empty, optOrNone]
  | cons r ys ih =>
    intro acc p
    simp only [List.foldl_cons]
    rw [ih (cssRuleStep tagName classNames id acc r) p,
        ih (cssRuleStep tagName classNames id emptyStyles r) p]
    unfold cssRuleStep
    by_cases hm : matchesSelector r.1 tagName classNames id = true
    · simp only [hm, if_true]
      rw [getProp_merge, getProp_merge, getProp_empty, optOrNoneRight, optOrAssoc]
    · simp only [hm, if_false, Bool.false_eq_true]
      rw [getProp_empty, optOrNoneRight]

/-! ## C1: cascade precedence (inline over rules over user-agent defaults) -/

/--
C1.  For every rule list, tag and attribute map, and every style property,
the resolved style map of `createNode` (`{...baseStyles, ...cssStyles,
...inlineStyles}`) is the last-write-wins merge of the user-agent baseline,
the matching style-sheet rules, and the inline `style` attribute, in that
order: a property set inline wins; otherwise a property set by a matching
rule wins; otherwise the user-agent default is kept.
-/
theorem c1_cascade_precedence (rules : List (Chars × List (Chars × Chars)))
    (tagName : Chars) (attribs : List (Chars × Chars)) (p : SProp) (v : SVal) :
    (getProp (parseStyles (List.lookup ("style").toList attribs)) p = some v →
       getProp (resolveStyles rules tagName attribs) p = some v)
    ∧ (getProp (parseStyles (List.lookup ("style").toList attribs)) p = none →
       getProp (applyCssRules rules tagName (classListOf attribs) (idOf attribs)) p = some v →
       getProp (resolveStyles rules tagName attribs) p = some v)
    ∧ (getProp (parseStyles (List.lookup ("style").toList attribs)) p = none →
       getProp (applyCssRules rules tagName (classListOf attribs) (idOf attribs)) p = none →
       getProp (resolveStyles rules tagName attribs) p =
         getProp (getUserAgentStyles tagName) p) := by
  have hres : getProp (resolveStyles rules tagName attribs) p =
      ((getProp (parseStyles (List.lookup ("style").toList attribs)) p).or
        ((getProp (applyCssRules rules tagName (classListOf attribs) (idOf attribs)) p).or
          (getProp (getUserAgentStyles tagName) p))) := by
    unfold resolveStyles
    rw [getProp_merge, getProp_merge]
  refine ⟨?_, ?_, ?_⟩
  · intro h1; rw [hres, h1, optOrSome]
  · intro h1 h2; rw [hres, h1, optOrNone, h2, optOrSome]
  · intro h1 h2; rw [hres, h1, optOrNone, h2, optOrNone]

/-- Witness for C1 at the spec's own example: `<p style="color:red">` with
rule `p { color: blue }` resolves to `color: red`. -/
theorem c1_witness :
    getProp (parseStyles (List.lookup ("style").toList
        [(("style").toList, ("color:red").toList)])) SProp.color =
      some (.str ("red").toList)
    ∧ getProp (resolveStyles (parseCss ("p\x7bcolor: blue\x7d").toList) ("p").toList
        [(("style").toList, ("color:red").toList)]) SProp.color =
      some (.str ("red").toList) :=
  ⟨by decide,
   (c1_cascade_precedence (parseCss ("p\x7bcolor: blue\x7d").toList) (("p").toList)
      [(("style").toList, ("color:red").toList)] SProp.color
      (.str ("red").toList)).1 (by decide)⟩

/-! ## C3: later matching rule wins the tie -/

/--
C3.  Matching rules are applied over the style map in rule-list document
order with per-property overwrite: whatever rules precede it, a matching
rule that appears last and sets a property determines that property's
resolved value.
-/
theorem c3_rule_order (rs : List (Chars × List (Chars × Chars))) (sel : Chars)
    (decls : List (Chars × Chars)) (tagName : Chars) (classNames : List Chars)
    (id : Option Chars) (p : SProp) (v : SVal) :
    matchesSelector sel tagName classNames id = true →
    getProp (parseStyles (some (joinDecls decls))) p = some v →
    getProp (applyCssRules (rs ++ [(sel, decls)]) tagName classNames id) p = some v := by
  intro hm hv
  unfold applyCssRules
  rw [List.foldl_append]
  simp only [List.foldl_cons, List.foldl_nil]
  unfold cssRuleStep
  simp only [hm, if_true]
  rw [getProp_merge, hv, optOrSome]

/-- Witness for C3 at the spec's own example: rules `p{color:blue}` then
`.x{color:green}` applied to `<p class="x">` yield `color: green`. -/
theorem c3_witness :
    matchesSelector (".x").toList ("p").toList [("x").toList] none = true
    ∧ getProp (parseStyles (some (joinDecls [(("color").toList, ("green").toList)])))
        SProp.color = some (.str ("green").toList)
    ∧ getProp (applyCssRules ([(("p").toList, [(("color").toList, ("blue").toList)])] ++
        [((".x").toList, [(("color").toList, ("green").toList)])])
        ("p").toList [("x").toList] none) SProp.color = some (.str ("green").toList) :=
  ⟨by decide, by decide,
   c3_rule_order [(("p").toList, [(("color").toList, ("blue").toList)])] ((".x").toList)
     [(("color").toList, ("green").toList)] (("p").toList) [("x").toList] none
     SProp.color (.str ("green").toList) (by decide) (by decide)⟩

/-! ## C4: embedded style text precedes external style text -/

/--
C4.  When both the embedded style blocks and the external style argument
are non-blank, the concatenated style text is the embedded text followed
(after the joining newline) by the external text; consequently, whenever
the rule list of the concatenation splits as embedded rules followed by
external rules, an external rule that matches an element and sets a
property determines that property (the external side wins same-property
ties against any embedded rule).
-/
theorem c4_embedded_before_external (html css : Chars) (tagName : Chars)
    (classNames : List Chars) (id : Option Chars) (p : SProp) (v : SVal) :
    jsTrim (extractStyleTags html) ≠ [] →
    jsTrim css ≠ [] →
    allCssOf html (some css) = extractStyleTags html ++ '\n' :: css
    ∧ (parseCss (allCssOf html (some css)) =
         parseCss (extractStyleTags html) ++ parseCss css →
       getProp (applyCssRules (parseCss css) tagName classNames id) p = some v →
       getProp (applyCssRules (parseCss (allCssOf html (some css))) tagName classNames id) p =
         some v) := by
  intro h1 h2
  constructor
  · unfold allCssOf
    have hf : ([extractStyleTags html, (some css).getD []]).filter
        (fun s => jsTrim s ≠ []) = [extractStyleTags html, css] := by
      simp [List.filter, h1, h2]
    rw [hf]
    simp [joinWith, List.append_assoc]
  · intro hsplit hext
    rw [hsplit]
    unfold applyCssRules at hext ⊢
    rw [List.foldl_append, applyFold_acc, hext, optOrSome]

/-- Witness for C4: embedded `p{color: blue}` with external `p{color:
green}` concatenates embedded-first and resolves `color` to the external
`green`. -/
theorem c4_witness :
    jsTrim (extractStyleTags ("<style>p\x7bcolor: blue\x7d</style>").toList) ≠ []
    ∧ jsTrim (("p\x7bcolor: green\x7d").toList) ≠ []
    ∧ allCssOf ("<style>p\x7bcolor: blue\x7d</style>").toList
        (some ("p\x7bcolor: green\x7d").toList) =
        extractStyleTags ("<style>p\x7bcolor: blue\x7d</style>").toList ++
          '\n' :: ("p\x7bcolor: green\x7d").toList
    ∧ getProp (applyCssRules
        (parseCss (allCssOf ("<style>p\x7bcolor: blue\x7d</style>").toList
          (some ("p\x7bcolor: green\x7d").toList)))
        ("p").toList [] none) SProp.color = some (.str ("green").toList) := by
  have h := c4_embedded_before_external ("<style>p\x7bcolor: blue\x7d</style>").toList
    (("p\x7bcolor: green\x7d").toList) (("p").toList) [] none SProp.color
    (.str ("green").toList) (by decide) (by decide)
  exact ⟨by decide, by decide, h.1, h.2 (by decide) (by decide)⟩

/-! ## C5: declaration splitting on colons -/

/-- `String.split` on a single-character separator peels off the segment
before the first occurrence of the separator. -/
theorem splitOnChar_append (sep : Char) (a rest : Chars) (h : sep ∉ a) :
    splitOnChar sep (a ++ sep :: rest) = a :: splitOnChar sep rest := by
  induction a with
  | nil => simp [splitOnChar]
  | cons c a ih =>
    have hc : ¬ c = sep := fun hcs => h (hcs ▸ List.mem_cons_self c a)
    have ha : sep ∉ a := fun hm => h (List.mem_cons_of_mem c hm)
    have ih' := ih ha
    rw [List.cons_append]
    simp only [splitOnChar, hc, if_false]
    rw [ih']

/--
C5 counterexample.  The claim says a declaration whose value contains a
colon keeps the whole remainder as its value (`width` ↦ `a:b`); the rule
parser actually splits on every colon and keeps only the segment between
the first and second colon (`width` ↦ `a`).
-/
theorem c5_counterexample :
    parseCss (("p\x7bwidth: a:b\x7d").toList) ≠
      [(("p").toList, [(("width").toList, ("a:b").toList)])]
    ∧ parseCss (("p\x7bwidth: a:b\x7d").toList) =
      [(("p").toList, [(("width").toList, ("a").toList)])] := by
  exact ⟨by decide, by decide⟩

/--
C5 amended.  Both the rule parser and inline-style parsing extract key and
value through the shared `declKV`: the declaration is split on every `:`;
the key is the trimmed text before the first colon and the value is the
trimmed text between the first and the second colon (any text after the
second colon is discarded); a declaration whose key or value is missing or
trims to empty is discarded.
-/
theorem c5_amended_split (a b c : Chars) (h1 : ':' ∉ a) (h2 : ':' ∉ b) :
    declKV (a ++ ':' :: (b ++ ':' :: c)) =
      (if jsTrim a = [] ∨ jsTrim b = [] then none else some (jsTrim a, jsTrim b)) := by
  unfold declKV
  rw [splitOnChar_append ':' a (b ++ ':' :: c) h1, splitOnChar_append ':' b c h2]
  rfl

/-- Witness for C5 amended at `width: a:b`: key `width`, value `a`. -/
theorem c5_amended_witness :
    ':' ∉ (("width").toList : Chars)
    ∧ declKV ((("width").toList : Chars) ++ ':' :: ((" a").toList ++ ':' :: ("b").toList)) =
      some (("width").toList, ("a").toList) := by
  refine ⟨by decide, ?_⟩
  rw [c5_amended_split ("width").toList ((" a").toList) (("b").toList) (by decide) (by decide)]
  decide

/-! ## C7: whitespace collapsing is idempotent -/

/-- Every character in the output of run collapsing is a space or fails the
collapsed class. -/
theorem collapseAux_mem (p : Char → Bool) :
    ∀ (s : Chars) (b : Bool) (c : Char), c ∈ collapseAux p b s → c = ' ' ∨ p c = false := by
  intro s
  induction s with
  | nil => intro b c hc; cases hc
  | cons d cs ih =>
    intro b c hc
    unfold collapseAux at hc
    by_cases hd : p d = true
    · simp only [hd, if_true] at hc
      cases b with
      | true => exact ih true c hc
      | false =>
        rcases List.mem_cons.mp hc with h | h
        · exact Or.inl h
        · exact ih true c h
    · simp only [hd, if_false, Bool.false_eq_true] at hc
      rcases List.mem_cons.mp hc with h | h
      · exact Or.inr (h ▸ Bool.eq_false_iff.mpr hd)
      · exact ih false c h

/-- Run collapsing leaves a string with no character of the class alone. -/
theorem collapseAux_of_none (p : Char → Bool) :
    ∀ (s : Chars) (b : Bool), (∀ c ∈ s, p c = false) → collapseAux p b s = s := by
  intro s
  induction s with
  | nil => intro b _; rfl
  | cons d cs ih =>
    intro b h
    have hd : p d = false := h d (List.mem_cons_self d cs)
    unfold collapseAux
    simp only [hd, Bool.false_eq_true, if_false]
    rw [ih false (fun c hc => h c (List.mem_cons_of_mem d hc))]

/-- With the in-run flag set, the head of the output never satisfies the
class. -/
theorem collapseAux_head (p : Char → Bool) :
    ∀ (s : Chars), (collapseAux p true s = []) ∨
      (∃ c cs, collapseAux p true s = c :: cs ∧ p c = false) := by
  intro s
  induction s with
  | nil => exact Or.inl rfl
  | cons d cs ih =>
    unfold collapseAux
    by_cases hd : p d = true
    · simp only [hd, if_true]
      exact ih
    · simp only [hd, if_false, Bool.false_eq_true]
      exact Or.inr ⟨d, collapseAux p false cs, rfl, Bool.eq_false_iff.mpr hd⟩

/-- Unfolding equation of `collapseAux` on a cons cell. -/
theorem collapseAux_cons (p : Char → Bool) (b : Bool) (d : Char) (cs : Chars) :
    collapseAux p b (d :: cs) =
      if p d = true then
        (if b = true then collapseAux p true cs else ' ' :: collapseAux p true cs)
      else d :: collapseAux p false cs := rfl

/-- The in-run flag is irrelevant when the string does not begin with a
character of the class. -/
theorem collapseAux_flag (p : Char → Bool) (s : Chars)
    (h : s = [] ∨ ∃ c cs, s = c :: cs ∧ p c = false) :
    collapseAux p true s = collapseAux p false s := by
  rcases h with h | ⟨c, cs, rfl, hc⟩
  · subst h; rfl
  · rw [collapseAux_cons, collapseAux_cons]
    simp only [hc, Bool.false_eq_true, if_false]

/-- Unfolding: a class character starts or extends a run. -/
theorem collapseAux_cons_pos_true (p : Char → Bool) (d : Char) (cs : Chars)
    (hd : p d = true) : collapseAux p true (d :: cs) = collapseAux p true cs := by
  rw [collapseAux_cons]
  simp only [hd, if_true]

/-- Unfolding: a class character outside a run emits one space. -/
theorem collapseAux_cons_pos_false (p : Char → Bool) (d : Char) (cs : Chars)
    (hd : p d = true) : collapseAux p false (d :: cs) = ' ' :: collapseAux p true cs := by
  rw [collapseAux_cons]
  simp only [hd, if_true, Bool.false_eq_true, if_false]

/-- Unfolding: a non-class character is copied and ends any run. -/
theorem collapseAux_cons_neg (p : Char → Bool) (b : Bool) (d : Char) (cs : Chars)
    (hd : ¬ p d = true) : collapseAux p b (d :: cs) = d :: collapseAux p false cs := by
  rw [collapseAux_cons]
  simp only [hd, if_false, Bool.false_eq_true]

/-- One pass of run collapsing is idempotent when the class contains the
space character. -/
theorem collapseAux_idem (p : Char → Bool) (hsp : p ' ' = true) :
    ∀ (s : Chars) (b : Bool),
      collapseAux p false (collapseAux p b s) = collapseAux p b s := by
  intro s
  induction s with
  | nil => intro b; rfl
  | cons d cs ih =>
    intro b
    by_cases hd : p d = true
    · cases b with
      | true =>
        rw [collapseAux_cons_pos_true p d cs hd]
        exact ih true
      | false =>
        rw [collapseAux_cons_pos_false p d cs hd,
            collapseAux_cons_pos_false p ' ' (collapseAux p true cs) hsp,
            collapseAux_flag p (collapseAux p true cs) (collapseAux_head p cs),
            ih true]
    · rw [collapseAux_cons_neg p b d cs hd,
          collapseAux_cons_neg p false d (collapseAux p false cs) hd,
          ih false]

/-- The `[\n\r\t]` class is contained in the `\s` class. -/
theorem nlCrTab_subset_space (c : Char) (h : isNlCrTab c = true) : isJsSpace c = true := by
  simp only [isNlCrTab, Bool.or_eq_true, decide_eq_true_eq] at h
  rcases h with (h | h) | h <;> subst h <;> decide

/--
C7.  The text-event whitespace collapsing of `ontext` (replace every run of
newline/carriage-return/tab with one space, then every remaining whitespace
run with one space) is idempotent: collapsing already-collapsed text gives
it back unchanged.
-/
theorem c7_collapse_idempotent (s : Chars) : collapseWs (collapseWs s) = collapseWs s := by
  unfold collapseWs collapseRuns
  have h1 : collapseAux isNlCrTab false
      (collapseAux isJsSpace false (collapseAux isNlCrTab false s)) =
      collapseAux isJsSpace false (collapseAux isNlCrTab false s) := by
    apply collapseAux_of_none
    intro c hc
    rcases collapseAux_mem isJsSpace (collapseAux isNlCrTab false s) false c hc with h | h
    · rw [h]; rfl
    · cases hn : isNlCrTab c with
      | false => rfl
      | true => rw [nlCrTab_subset_space c hn] at h; cases h
  rw [h1]
  exact collapseAux_idem isJsSpace (by decide) (collapseAux isNlCrTab false s) false

/-! ## C9: excess close events on an empty stack are no-ops -/

/--
C9.  A close event arriving while the open-element stack is empty leaves
the builder state (stack and root sequence) unchanged, for every tag name
(`stack.pop()` on an empty JS array is a no-op); the step function is a
total Lean function over arbitrary events, so no event stream can make it
fail.
-/
theorem c9_excess_close_noop (rules : List (Chars × List (Chars × Chars)))
    (roots : List RNode) (name : Chars) :
    stepEvent rules ⟨roots, []⟩ (.ctag name) = ⟨roots, []⟩ := by
  show stepClose name ⟨roots, []⟩ = ⟨roots, []⟩
  unfold stepClose
  split <;> rfl

/-! ## C10: the static rule field cannot leak between sequential calls -/

/--
C10.  A conversion call's result does not depend on the value the static
`cssRules` field held before the call: the field is fully reassigned from
the call's own arguments before any style resolution reads it.  Hence a
call is unaffected by any earlier call's leftover field value, and two
sequential calls with identical `(markup, externalStyleText)` arguments
(hence, the external tokenizer being deterministic, identical event
streams) return structurally equal forests.
-/
theorem c10_sequential_determinism (html₁ html₂ : Chars)
    (events₁ events₂ : List HEvent) (css₁ css₂ : Option Chars)
    (prior p₁ p₂ : List (Chars × List (Chars × Chars))) :
    (parseModelCall html₂ events₂ css₂ ((parseModelCall html₁ events₁ css₁ prior).2)).1 =
      (parseModelCall html₂ events₂ css₂ p₂).1
    ∧ (parseModelCall html₂ events₂ css₂ p₁).1 = (parseModelCall html₂ events₂ css₂ p₂).1 :=
  ⟨rfl, rfl⟩

/-! ## C2: unsupported tags -/

/--
C2 counterexample.  The claim requires the forest of
`div, unknown, /unknown, span, "t", /span, /div` to equal the forest of
the same stream with the `unknown` open/close pair removed
(`div[span["t"]]`, one root).  It does not: `onclosetag` pops for every
non-void tag including unsupported ones, so `/unknown` closes the `div`
and the following `span` becomes a second root.
-/
theorem c2_counterexample :
    runEvents [] [.otag ("div").toList [], .otag ("unknown").toList [],
        .ctag ("unknown").toList, .otag ("span").toList [], .textEv ("t").toList,
        .ctag ("span").toList, .ctag ("div").toList] ≠
      runEvents [] [.otag ("div").toList [], .otag ("span").toList [],
        .textEv ("t").toList, .ctag ("span").toList, .ctag ("div").toList] := by
  intro h
  exact absurd (congrArg List.length h) (by decide)

/--
C2 amended.  When the factory signals "unsupported" for an open event, the
event is fully ignored — no node, no push — and the output forest equals
the forest of the same stream with only that open event removed;
descendants therefore attach to the enclosing stack-top (or root).  The
matching close event, however, is not elided: it is processed like any
other non-void close and pops whatever element is then open.
-/
theorem c2_amended_transparency (rules : List (Chars × List (Chars × Chars)))
    (pre post : List HEvent) (name : Chars) (attribs : List (Chars × Chars))
    (h : createNode rules name attribs = none) :
    runEvents rules (pre ++ HEvent.otag name attribs :: post) =
      runEvents rules (pre ++ post) := by
  have hstep : ∀ s : BState, stepEvent rules s (.otag name attribs) = s := by
    intro s
    show stepOpen rules name attribs s = s
    unfold stepOpen
    rw [h]
    split <;> rfl
  simp only [runEvents, buildState]
  rw [List.foldl_append, List.foldl_append, List.foldl_cons, hstep]

/-- Witness for C2 amended: the `unknown` open inside `div` contributes
nothing. -/
theorem c2_amended_witness :
    createNode [] (("unknown").toList) [] = none
    ∧ runEvents [] ([.otag ("div").toList []] ++
        HEvent.otag ("unknown").toList [] :: [.ctag ("div").toList]) =
      runEvents [] ([.otag ("div").toList []] ++ [.ctag ("div").toList]) :=
  ⟨by rfl,
   c2_amended_transparency [] [.otag ("div").toList []] [.ctag ("div").toList]
     (("unknown").toList) [] (by rfl)⟩

/-! ## C8: degenerate inputs yield an empty forest, never an error -/

/-- Text and close events leave a builder state with an empty stack
unchanged. -/
theorem stepEvent_nonopen (rules : List (Chars × List (Chars × Chars)))
    (s : BState) (e : HEvent) (hs : s.stack = []) (he : isOpenEv e = false) :
    stepEvent rules s e = s := by
  cases e with
  | otag n a => simp [isOpenEv] at he
  | textEv raw =>
    show stepText raw s = s
    unfold stepText
    rw [hs]
  | ctag n =>
    show stepClose n s = s
    unfold stepClose
    rw [hs]
    split <;> rfl

/--
C8.  An empty event stream produces an empty root forest, and so does any
stream with no open-tag events (markup-free input: bare text is discarded
at root level, stray closes are no-ops).  The builder and the style parsers
are total functions of their input, so every input produces a node
sequence and no exception outcome exists.
-/
theorem c8_empty_input (rules : List (Chars × List (Chars × Chars)))
    (events : List HEvent) :
    runEvents rules [] = []
    ∧ ((∀ e ∈ events, isOpenEv e = false) → runEvents rules events = []) := by
  constructor
  · rfl
  · intro h
    have hfold : ∀ (evs : List HEvent), (∀ e ∈ evs, isOpenEv e = false) →
        evs.foldl (stepEvent rules) ⟨[], []⟩ = (⟨[], []⟩ : BState) := by
      intro evs
      induction evs with
      | nil => intro _; rfl
      | cons e evs ih =>
        intro he
        rw [List.foldl_cons,
            stepEvent_nonopen rules ⟨[], []⟩ e rfl (he e (List.mem_cons_self e evs)),
            ih (fun x hx => he x (List.mem_cons_of_mem e hx))]
    simp only [runEvents, buildState]
    rw [hfold events h]
    rfl

/-- Witness for C8 on a markup-free stream: text and a stray close only. -/
theorem c8_witness :
    (∀ e ∈ ([.textEv ("hello").toList, .ctag ("p").toList] : List HEvent),
      isOpenEv e = false)
    ∧ runEvents [] [.textEv ("hello").toList, .ctag ("p").toList] = [] :=
  ⟨by decide,
   (c8_empty_input [] [.textEv ("hello").toList, .ctag ("p").toList]).2 (by decide)⟩

/-! ## C6: void-kind nodes never hold children and never sit on the stack -/


/-- Every node the factory creates is void-safe: `br` and `img` nodes are
built without a `children` property, containers with an empty one. -/
theorem createNode_voidok (rules : List (Chars × List (Chars × Chars)))
    (name : Chars) (attribs : List (Chars × Chars)) :
    ∀ n, createNode rules name attribs = some n → VoidOkN n := by
  intro n h
  unfold createNode at h
  repeat' split at h
  all_goals first
    | exact Option.noConfusion h
    | (injection h with h; subst h;
       exact VoidOkN.intro _ _ _ _ _ (fun _ => rfl) VoidOkL.nil)
    | (injection h with h; subst h;
       exact VoidOkN.intro _ _ _ _ _ (fun hh => absurd hh (by decide)) VoidOkL.nil)

/-- A created node for a non-void tag is never of `break`/`image` kind
(those arise only from the void tags `br` and `img`). -/
theorem createNode_container (rules : List (Chars × List (Chars × Chars)))
    (name : Chars) (attribs : List (Chars × Chars)) :
    ∀ n, createNode rules name attribs = some n → isVoidElement name = false →
      n.ty ≠ NType.brk ∧ n.ty ≠ NType.image := by
  intro n h hv
  unfold createNode at h
  repeat' split at h
  all_goals first
    | exact Option.noConfusion h
    | (injection h with h; subst h; refine ⟨fun hh => ?_, fun hh => ?_⟩ <;>
        (simp only [RNode.ty] at hh; exact absurd hh (by decide)))
    | (rename_i hname; rw [hname] at hv; exact absurd hv (by decide))

theorem voidOkL_append (xs ys : List RNode) (hx : VoidOkL xs) (hy : VoidOkL ys) :
    VoidOkL (xs ++ ys) := by
  induction xs with
  | nil => rw [List.nil_append]; exact hy
  | cons n ns ih =>
    cases hx with
    | cons _ _ hn hns =>
      rw [List.cons_append]
      exact VoidOkL.cons _ _ hn (ih hns)

theorem finalizeFrame_voidok (f : Frame) (h1 : frameTyOk f) (h2 : VoidOkL f.acc) :
    VoidOkN (finalizeFrame f) :=
  VoidOkN.intro f.ty f.styles f.txt f.src (some f.acc)
    (fun hh => hh.elim (fun x => absurd x h1.1) (fun x => absurd x h1.2)) h2

theorem appendChild_inv (s : BState) (n : RNode) (hs : BInv s) (hn : VoidOkN n) :
    BInv (appendChild s n) := by
  unfold appendChild
  split
  · exact ⟨voidOkL_append _ _ hs.1 (VoidOkL.cons _ _ hn VoidOkL.nil), hs.2⟩
  · rename_i f fs hstack
    refine ⟨hs.1, ?_⟩
    intro g hg
    rcases List.mem_cons.mp hg with hg | hg
    · subst hg
      have hf := hs.2 f (by rw [hstack]; exact List.mem_cons_self f fs)
      exact ⟨hf.1, voidOkL_append _ _ hf.2 (VoidOkL.cons _ _ hn VoidOkL.nil)⟩
    · exact hs.2 g (by rw [hstack]; exact List.mem_cons_of_mem f hg)

theorem stepEvent_inv (rules : List (Chars × List (Chars × Chars))) (s : BState)
    (e : HEvent) (hs : BInv s) : BInv (stepEvent rules s e) := by
  cases e with
  | otag name attribs =>
    show BInv (stepOpen rules name attribs s)
    unfold stepOpen
    split
    · exact hs
    split
    · exact hs
    rename_i n hres
    split
    · exact appendChild_inv s n hs (createNode_voidok rules name attribs n hres)
    · rename_i hnv
      have hv : isVoidElement name = false := Bool.eq_false_iff.mpr hnv
      have hcont := createNode_container rules name attribs n hres hv
      have hok := createNode_voidok rules name attribs n hres
      cases n with
      | mk ty st t src ch =>
        refine ⟨hs.1, ?_⟩
        intro g hg
        rcases List.mem_cons.mp hg with hg | hg
        · subst hg
          cases hok with
          | intro _ _ _ _ _ hcond hch =>
            exact ⟨⟨hcont.1, hcont.2⟩, hch⟩
        · exact hs.2 g hg
  | textEv raw =>
    show BInv (stepText raw s)
    unfold stepText
    split
    · exact hs
    rename_i f fs hstack
    split
    · refine ⟨hs.1, ?_⟩
      intro g hg
      rcases List.mem_cons.mp hg with hg | hg
      · subst hg
        have hf := hs.2 f (by rw [hstack]; exact List.mem_cons_self f fs)
        refine ⟨hf.1, voidOkL_append _ _ hf.2 ?_⟩
        exact VoidOkL.cons _ _ (VoidOkN.intro _ _ _ _ none (fun _ => rfl) VoidOkL.nil)
          VoidOkL.nil
      · exact hs.2 g (by rw [hstack]; exact List.mem_cons_of_mem f hg)
    · exact hs
  | ctag name =>
    show BInv (stepClose name s)
    unfold stepClose
    split
    · split
      · exact hs
      · rename_i f fs hstack
        have hf := hs.2 f (by rw [hstack]; exact List.mem_cons_self f fs)
        refine appendChild_inv _ _ ⟨hs.1, ?_⟩ (finalizeFrame_voidok f hf.1 hf.2)
        intro g hg
        exact hs.2 g (by rw [hstack]; exact List.mem_cons_of_mem f hg)
    · exact hs

theorem buildState_inv (rules : List (Chars × List (Chars × Chars)))
    (events : List HEvent) : BInv (buildState rules events) := by
  unfold buildState
  have hgo : ∀ (evs : List HEvent) (s : BState), BInv s →
      BInv (evs.foldl (stepEvent rules) s) := by
    intro evs
    induction evs with
    | nil => intro s hs; exact hs
    | cons e evs ih =>
      intro s hs
      rw [List.foldl_cons]
      exact ih _ (stepEvent_inv rules s e hs)
  refine hgo events ⟨[], []⟩ ⟨VoidOkL.nil, ?_⟩
  intro f hf
  cases hf

theorem finishAux_voidok (roots : List RNode) :
    ∀ (fs : List Frame) (f : Frame), VoidOkL roots → frameTyOk f → VoidOkL f.acc →
      (∀ g ∈ fs, frameTyOk g ∧ VoidOkL g.acc) → VoidOkL (finishAux roots f fs) := by
  intro fs
  induction fs with
  | nil =>
    intro f hr h1 h2 _
    exact voidOkL_append _ _ hr (VoidOkL.cons _ _ (finalizeFrame_voidok f h1 h2) VoidOkL.nil)
  | cons g gs ih =>
    intro f hr h1 h2 hgs
    have hg := hgs g (List.mem_cons_self g gs)
    refine ih _ hr hg.1 ?_ (fun x hx => hgs x (List.mem_cons_of_mem g hx))
    exact voidOkL_append _ _ hg.2
      (VoidOkL.cons _ _ (finalizeFrame_voidok f h1 h2) VoidOkL.nil)

theorem runEvents_voidok (rules : List (Chars × List (Chars × Chars)))
    (events : List HEvent) : VoidOkL (runEvents rules events) := by
  simp only [runEvents]
  have hinv := buildState_inv rules events
  cases hstack : (buildState rules events).stack with
  | nil => exact hinv.1
  | cons f fs =>
    unfold finishStack
    have hf := hinv.2 f (by rw [hstack]; exact List.mem_cons_self f fs)
    exact finishAux_voidok _ fs f hinv.1 hf.1 hf.2
      (fun g hg => hinv.2 g (by rw [hstack]; exact List.mem_cons_of_mem f hg))

/--
C6.  At every point of tree construction, void-kind nodes (`break`,
`image`) are never on the open-element stack (every stacked frame has a
non-void kind), every node of the finished forest satisfies the invariant
that `break`/`image` nodes have no children, and opening a void element
leaves the stack of open elements unchanged (only a child is appended), so
a text or open event arriving right after a void element's open attaches to
the same stack-top — the nearest enclosing non-void ancestor — exactly as
before the void element.
-/
theorem c6_void_invariant (rules : List (Chars × List (Chars × Chars))) (events : List HEvent)
    (name : Chars) (attribs : List (Chars × Chars)) (s : BState) :
    (∀ f ∈ (buildState rules events).stack, f.ty ≠ NType.brk ∧ f.ty ≠ NType.image)
    ∧ VoidOkL (runEvents rules events)
    ∧ (isVoidElement name = true →
        (stepEvent rules s (.otag name attribs)).stack.map frameSig =
          s.stack.map frameSig) := by
  refine ⟨?_, runEvents_voidok rules events, ?_⟩
  · intro f hf
    exact ((buildState_inv rules events).2 f hf).1
  · intro hv
    show (stepOpen rules name attribs s).stack.map frameSig = _
    unfold stepOpen
    split
    · rfl
    split
    · rfl
    all_goals first
      | (exact absurd hv (by assumption))
      | (unfold appendChild
         split
         · rfl
         · rename_i f fs hstack
           rw [hstack]
           rfl)

/-- Witness for C6: opening `img` (a void element) on the empty builder
state leaves the stack empty. -/
theorem c6_witness :
    isVoidElement ("img").toList = true
    ∧ (stepEvent [] ⟨[], []⟩ (.otag ("img").toList [])).stack.map frameSig =
        (⟨[], []⟩ : BState).stack.map frameSig :=
  ⟨by decide,
   (c6_void_invariant [] [] ("img").toList [] ⟨[], []⟩).2.2 (by decide)⟩
